import Mathlib

/-!
Verification of the `DataSet` engine of the air-quality data analysis
tool (`src/FinalAssignment.py`).

Shallow embedding: the Python class `DataSet` becomes a Lean structure,
its mutating methods become state-passing functions.  A Python method
that can raise is modelled as returning `Option PyError × AQDataSet`:
`(none, ds')` is a normal return with new state `ds'`, and
`(some e, ds)` is a raised exception; every raising path in the source
raises before mutating `self`, so the returned state on an exception is
the unchanged input state.  Python `float` concentration values are
modelled by exact rationals `ℚ`; the Python `dict` of zip
codes (insertion ordered, unique keys) is modelled as an association
list `List (String × Bool)`.
-/

/-- One data row: `("zip", "time of day", concentration)`, the element
type of `DataSet._data`. -/
structure Reading where
  zip : String
  time : String
  conc : ℚ
deriving DecidableEq, Repr

/-- The exceptions the engine raises (`EmptyDatasetError`,
`NoMatchingItems`, and the builtin `ValueError` / `LookupError`). -/
inductive PyError where
  | emptyDataset
  | noMatchingItems
  | valueError
  | lookupError
deriving DecidableEq, Repr

/-- The state of a `DataSet` object: `_header`, `_data` (with `none`
for Python `None`, i.e. never loaded), `_zips`, `_times`. -/
structure AQDataSet where
  header : String
  data : Option (List Reading)
  zips : List (String × Bool)
  times : List String
deriving DecidableEq, Repr

/-- A fresh `DataSet()` (the `__init__` body with the default header,
whose `self.header = header` assignment always succeeds at length 0). -/
def AQDataSet.init : AQDataSet :=
  { header := "", data := none, zips := [], times := [] }

/-- Python `min` over a nonempty list `x :: xs`. -/
def pyMin (x : ℚ) (xs : List ℚ) : ℚ := xs.foldl min x

/-- Python `max` over a nonempty list `x :: xs`. -/
def pyMax (x : ℚ) (xs : List ℚ) : ℚ := xs.foldl max x

/-- The list comprehension in `_cross_table_statistics`:
`[row[2] for row in data if row[0] == d1 and row[1] == d2]`. -/
def matchedConc (rows : List Reading) (d₁ d₂ : String) : List ℚ :=
  (rows.filter (fun row => row.zip == d₁ && row.time == d₂)).map Reading.conc

/-- Model of `DataSet._cross_table_statistics`: raises `EmptyDatasetError` when
`_data` is not a list or empty, `NoMatchingItems` when the filtered
list is empty, and otherwise returns `(min, sum/len, max)` of the
matched concentrations. -/
def AQDataSet.crossTabStatistics (ds : AQDataSet) (d₁ d₂ : String) :
    Except PyError (ℚ × ℚ × ℚ) :=
  match ds.data with
  | none => .error .emptyDataset
  | some rows =>
    if rows.length = 0 then .error .emptyDataset
    else
      match matchedConc rows d₁ d₂ with
      | [] => .error .noMatchingItems
      | x :: xs =>
        .ok (pyMin x xs, (x :: xs).sum / ((x :: xs).length : ℚ), pyMax x xs)

/-- The loop body of `_initialize_labels` acting on the `zips` dict:
`zips[row[0]] = True` (a Python dict keeps the first-seen position of
an existing key and stores the new value, here always `True`). -/
def zipsStep (acc : List (String × Bool)) (row : Reading) : List (String × Bool) :=
  if acc.any (fun p => p.1 == row.zip) then acc else acc ++ [(row.zip, true)]

/-- The `zips` dict built by `_initialize_labels`: unique zip keys in
first-seen order, every value `True`. -/
def initZips (rows : List Reading) : List (String × Bool) :=
  rows.foldl zipsStep []

/-- The loop body of `_initialize_labels` acting on the `times` set:
`times.add(row[1])`.  The set is modelled with first-seen order, one
stable order of the distinct elements. -/
def timesStep (acc : List String) (row : Reading) : List String :=
  if acc.any (fun t => t == row.time) then acc else acc ++ [row.time]

/-- The `times` list built by `_initialize_labels`: the distinct
time-of-day strings (`list(times)` of the set). -/
def initTimes (rows : List Reading) : List String :=
  rows.foldl timesStep []

/-- A load of row sequence `rows` into the engine: sets `_data` and
runs `_initialize_labels` (the common body of `load_default_data` and
`load_file` after CSV parsing). -/
def AQDataSet.load (ds : AQDataSet) (rows : List Reading) : AQDataSet :=
  { ds with data := some rows, zips := initZips rows, times := initTimes rows }

/-- The `header` property setter: stores strings of length ≤ 30 and
raises `ValueError` otherwise (before any assignment to `_header`). -/
def AQDataSet.setHeader (ds : AQDataSet) (text : String) :
    Option PyError × AQDataSet :=
  if text.length ≤ 30 then (none, { ds with header := text })
  else (.some .valueError, ds)

/-- Model of `DataSet.get_data`: `[None]` when never loaded, else a copy of the
`_data` list.  The sum of the two shapes is typed `List (Option Reading)`,
with `none` playing Python's `None`. -/
def AQDataSet.get_data (ds : AQDataSet) : List (Option Reading) :=
  match ds.data with
  | none => [none]
  | some rows => rows.map some

/-- Membership test `target_zip in self._zips` on the dict model. -/
def zipsContains (zips : List (String × Bool)) (z : String) : Bool :=
  zips.any (fun p => p.1 == z)

/-- Dict lookup `self._zips[z]` on the dict model. -/
def zipsLookup (zips : List (String × Bool)) (z : String) : Option Bool :=
  (zips.find? (fun p => p.1 == z)).map Prod.snd

/-- In-place update `self._zips[z] = not self._zips[z]` on the dict
model: the entry for `z` keeps its position and flips its value. -/
def zipsToggle (zips : List (String × Bool)) (z : String) : List (String × Bool) :=
  zips.map (fun p => if p.1 == z then (p.1, !p.2) else p)

/-- Model of `DataSet.toggle_zip`: raises `LookupError` when `target_zip` is not
a key of `_zips` (before touching any state), else flips its flag. -/
def AQDataSet.toggle_zip (ds : AQDataSet) (target : String) :
    Option PyError × AQDataSet :=
  if zipsContains ds.zips target = false then (.some .lookupError, ds)
  else (none, { ds with zips := zipsToggle ds.zips target })

/-- The statistic selector enum `Stats` (`MIN = 0, AVG = 1, MAX = 2`
index into the `_cross_table_statistics` triple). -/
inductive Stats where
  | MIN
  | AVG
  | MAX
deriving DecidableEq, Repr

/-- Projection `min_max_avg[stat.value]`: the selected component of the
statistics triple. -/
def selectStat : Stats → ℚ × ℚ × ℚ → ℚ
  | .MIN, t => t.1
  | .AVG, t => t.2.1
  | .MAX, t => t.2.2

/-- One cell of the rendered cross table: either the sentinel `"N/A"`
or a formatted statistic value. -/
inductive Cell where
  | na
  | val (q : ℚ)
deriving DecidableEq, Repr

/-- The observable output of `DataSet.display_cross_table`: either the
single "No data is loaded" message, or a table of one labelled row of
cells per rendered zip. -/
inductive RenderResult where
  | noData
  | table (rows : List (String × List Cell))
deriving DecidableEq, Repr

/-- One table cell of `display_cross_table`: `_cross_table_statistics`
with `NoMatchingItems` caught and rendered as `"N/A"`, a success
rendered as the selected component.  (`EmptyDatasetError` cannot occur
at the call site, which is guarded by a nonemptiness check; the model
renders that impossible case as `na` as well.) -/
def renderCell (ds : AQDataSet) (stat : Stats) (zipCode timeOfDay : String) : Cell :=
  match ds.crossTabStatistics zipCode timeOfDay with
  | .error _ => .na
  | .ok t => .val (selectStat stat t)

/-- Model of `DataSet.display_cross_table`: the "no data" message when `_data`
is not a list or empty, else one row per zip whose flag is `True`
(in dict order), with one cell per entry of `_times` (in list order). -/
def AQDataSet.display_cross_table (ds : AQDataSet) (stat : Stats) : RenderResult :=
  match ds.data with
  | none => .noData
  | some rows =>
    if rows.length = 0 then .noData
    else
      .table ((ds.zips.filter (fun p => p.2)).map (fun p =>
        (p.1, ds.times.map (fun timeOfDay => renderCell ds stat p.1 timeOfDay))))

/-- The default data of `load_default_data`. -/
def defaultRows : List Reading :=
  [⟨"12345", "Morning", 11/10⟩,
   ⟨"94022", "Morning", 22/10⟩,
   ⟨"94040", "Morning", 3⟩,
   ⟨"94022", "Midday", 1⟩,
   ⟨"94040", "Morning", 1⟩,
   ⟨"94022", "Evening", 32/10⟩]

/-! ### Lemmas about Python `min`/`max` folds -/

theorem foldl_min_le_init (xs : List ℚ) (x : ℚ) : xs.foldl min x ≤ x := by
  induction xs generalizing x with
  | nil => exact le_refl x
  | cons y ys ih => exact le_trans (ih (min x y)) (min_le_left x y)

theorem foldl_min_le_mem (xs : List ℚ) (x y : ℚ) (hy : y ∈ xs) :
    xs.foldl min x ≤ y := by
  induction xs generalizing x with
  | nil => cases hy
  | cons z zs ih =>
    rcases List.mem_cons.mp hy with h | h
    · subst h
      exact le_trans (foldl_min_le_init zs (min x y)) (min_le_right x y)
    · exact ih (min x z) h

theorem pyMin_le (x : ℚ) (xs : List ℚ) : ∀ y ∈ x :: xs, pyMin x xs ≤ y := by
  intro y hy
  rcases List.mem_cons.mp hy with h | h
  · rw [h]; exact foldl_min_le_init xs x
  · exact foldl_min_le_mem xs x y h

theorem foldl_min_mem (xs : List ℚ) (x : ℚ) :
    xs.foldl min x = x ∨ xs.foldl min x ∈ xs := by
  induction xs generalizing x with
  | nil => exact Or.inl rfl
  | cons y ys ih =>
    rcases ih (min x y) with h | h
    · rcases min_choice x y with hc | hc
      · exact Or.inl (by rw [List.foldl_cons, h, hc])
      · refine Or.inr ?_
        rw [List.foldl_cons, h, hc]
        exact List.mem_cons_self y ys
    · exact Or.inr (List.mem_cons_of_mem y h)

theorem pyMin_mem (x : ℚ) (xs : List ℚ) : pyMin x xs ∈ x :: xs := by
  rcases foldl_min_mem xs x with h | h
  · rw [pyMin, h]; exact List.mem_cons_self x xs
  · exact List.mem_cons_of_mem x h

theorem foldl_max_init_le (xs : List ℚ) (x : ℚ) : x ≤ xs.foldl max x := by
  induction xs generalizing x with
  | nil => exact le_refl x
  | cons y ys ih => exact le_trans (le_max_left x y) (ih (max x y))

theorem foldl_max_mem_le (xs : List ℚ) (x y : ℚ) (hy : y ∈ xs) :
    y ≤ xs.foldl max x := by
  induction xs generalizing x with
  | nil => cases hy
  | cons z zs ih =>
    rcases List.mem_cons.mp hy with h | h
    · subst h
      exact le_trans (le_max_right x y) (foldl_max_init_le zs (max x y))
    · exact ih (max x z) h

theorem pyMax_le (x : ℚ) (xs : List ℚ) : ∀ y ∈ x :: xs, y ≤ pyMax x xs := by
  intro y hy
  rcases List.mem_cons.mp hy with h | h
  · rw [h]; exact foldl_max_init_le xs x
  · exact foldl_max_mem_le xs x y h

theorem foldl_max_mem (xs : List ℚ) (x : ℚ) :
    xs.foldl max x = x ∨ xs.foldl max x ∈ xs := by
  induction xs generalizing x with
  | nil => exact Or.inl rfl
  | cons y ys ih =>
    rcases ih (max x y) with h | h
    · rcases max_choice x y with hc | hc
      · exact Or.inl (by rw [List.foldl_cons, h, hc])
      · refine Or.inr ?_
        rw [List.foldl_cons, h, hc]
        exact List.mem_cons_self y ys
    · exact Or.inr (List.mem_cons_of_mem y h)

theorem pyMax_mem (x : ℚ) (xs : List ℚ) : pyMax x xs ∈ x :: xs := by
  rcases foldl_max_mem xs x with h | h
  · rw [pyMax, h]; exact List.mem_cons_self x xs
  · exact List.mem_cons_of_mem x h

theorem mul_length_le_sum (l : List ℚ) (m : ℚ) (h : ∀ y ∈ l, m ≤ y) :
    m * (l.length : ℚ) ≤ l.sum := by
  induction l with
  | nil => simp
  | cons x xs ih =>
    have hx : m ≤ x := h x (List.mem_cons_self x xs)
    have hxs : ∀ y ∈ xs, m ≤ y := fun y hy => h y (List.mem_cons_of_mem x hy)
    simp only [List.sum_cons, List.length_cons]
    push_cast
    calc m * ((xs.length : ℚ) + 1) = m * (xs.length : ℚ) + m := by ring
    _ ≤ xs.sum + x := add_le_add (ih hxs) hx
    _ = x + xs.sum := by ring

theorem sum_le_mul_length (l : List ℚ) (m : ℚ) (h : ∀ y ∈ l, y ≤ m) :
    l.sum ≤ m * (l.length : ℚ) := by
  induction l with
  | nil => simp
  | cons x xs ih =>
    have hx : x ≤ m := h x (List.mem_cons_self x xs)
    have hxs : ∀ y ∈ xs, y ≤ m := fun y hy => h y (List.mem_cons_of_mem x hy)
    simp only [List.sum_cons, List.length_cons]
    push_cast
    calc x + xs.sum ≤ m + m * (xs.length : ℚ) := add_le_add hx (ih hxs)
    _ = m * ((xs.length : ℚ) + 1) := by ring

/-! ### Claim C1: success value of `crossTabStatistics` -/
/-! ### Claim C1: success value of `crossTabStatistics` -/

theorem matchedConc_ne_nil (rows : List Reading) (d₁ d₂ : String)
    (h : ∃ r ∈ rows, r.zip = d₁ ∧ r.time = d₂) :
    matchedConc rows d₁ d₂ ≠ [] := by
  rcases h with ⟨r, hr, hz, ht⟩
  have hmem : r.conc ∈ matchedConc rows d₁ d₂ := by
    refine List.mem_map.mpr ⟨r, ?_, rfl⟩
    refine List.mem_filter.mpr ⟨hr, ?_⟩
    simp [hz, ht]
  intro hnil
  rw [hnil] at hmem
  cases hmem

/-- C1: on a loaded, non-empty dataset, whenever at least one reading
matches both descriptors by exact string equality,
`crossTabStatistics` succeeds and returns a triple whose first
component is the minimum of the matched concentration values, whose
second is their sum divided by their count, and whose third is their
maximum. -/
theorem crossTab_min_mean_max (ds : AQDataSet) (rows : List Reading) (d₁ d₂ : String)
    (hload : ds.data = some rows) (hne : rows ≠ [])
    (hmatch : ∃ r ∈ rows, r.zip = d₁ ∧ r.time = d₂) :
    ∃ mn avg mx, ds.crossTabStatistics d₁ d₂ = .ok (mn, avg, mx) ∧
      mn ∈ matchedConc rows d₁ d₂ ∧ (∀ y ∈ matchedConc rows d₁ d₂, mn ≤ y) ∧
      avg = (matchedConc rows d₁ d₂).sum / ((matchedConc rows d₁ d₂).length : ℚ) ∧
      mx ∈ matchedConc rows d₁ d₂ ∧ (∀ y ∈ matchedConc rows d₁ d₂, y ≤ mx) := by
  have hmc := matchedConc_ne_nil rows d₁ d₂ hmatch
  rcases hx : matchedConc rows d₁ d₂ with _ | ⟨x, xs⟩
  · exact absurd hx hmc
  have h0 : ¬ rows.length = 0 := fun hl => hne (List.length_eq_zero.mp hl)
  have hcalc : ds.crossTabStatistics d₁ d₂ =
      .ok (pyMin x xs, (x :: xs).sum / ((x :: xs).length : ℚ), pyMax x xs) := by
    unfold AQDataSet.crossTabStatistics
    rw [hload]
    simp only [if_neg h0, hx]
  exact ⟨pyMin x xs, (x :: xs).sum / ((x :: xs).length : ℚ), pyMax x xs,
    hcalc, pyMin_mem x xs, pyMin_le x xs, rfl, pyMax_mem x xs, pyMax_le x xs⟩

/-- Witness for C1 at the default data and the pair ("94040", "Morning"). -/
theorem crossTab_min_mean_max_witness :
    ∃ mn avg mx, (AQDataSet.init.load defaultRows).crossTabStatistics
        "94040" "Morning" = .ok (mn, avg, mx) ∧
      mn ∈ matchedConc defaultRows "94040" "Morning" ∧
      (∀ y ∈ matchedConc defaultRows "94040" "Morning", mn ≤ y) ∧
      avg = (matchedConc defaultRows "94040" "Morning").sum /
        ((matchedConc defaultRows "94040" "Morning").length : ℚ) ∧
      mx ∈ matchedConc defaultRows "94040" "Morning" ∧
      (∀ y ∈ matchedConc defaultRows "94040" "Morning", y ≤ mx) :=
  crossTab_min_mean_max (AQDataSet.init.load defaultRows) defaultRows
    "94040" "Morning" rfl (by simp [defaultRows])
    ⟨⟨"94040", "Morning", 3⟩, by simp [defaultRows], rfl, rfl⟩

/-! ### Claim C9: min ≤ avg ≤ max -/

/-- C9: every successful `crossTabStatistics` triple satisfies
min ≤ avg ≤ max. -/
theorem crossTab_ordered (ds : AQDataSet) (d₁ d₂ : String) (mn avg mx : ℚ)
    (h : ds.crossTabStatistics d₁ d₂ = .ok (mn, avg, mx)) :
    mn ≤ avg ∧ avg ≤ mx := by
  rcases hd : ds.data with _ | rows
  · have hval : ds.crossTabStatistics d₁ d₂ = .error .emptyDataset := by
      unfold AQDataSet.crossTabStatistics; rw [hd]
    rw [hval] at h; cases h
  by_cases h0 : rows.length = 0
  · have hval : ds.crossTabStatistics d₁ d₂ = .error .emptyDataset := by
      unfold AQDataSet.crossTabStatistics; rw [hd]; simp only [if_pos h0]
    rw [hval] at h; cases h
  rcases hx : matchedConc rows d₁ d₂ with _ | ⟨x, xs⟩
  · have hval : ds.crossTabStatistics d₁ d₂ = .error .noMatchingItems := by
      unfold AQDataSet.crossTabStatistics; rw [hd]; simp only [if_neg h0, hx]
    rw [hval] at h; cases h
  have hcalc : ds.crossTabStatistics d₁ d₂ =
      .ok (pyMin x xs, (x :: xs).sum / ((x :: xs).length : ℚ), pyMax x xs) := by
    unfold AQDataSet.crossTabStatistics; rw [hd]; simp only [if_neg h0, hx]
  rw [hcalc] at h
  simp only [Except.ok.injEq, Prod.mk.injEq] at h
  obtain ⟨hmn, havg, hmx⟩ := h
  have hn : (0 : ℚ) < ((x :: xs).length : ℚ) := by
    exact_mod_cast Nat.succ_pos xs.length
  constructor
  · rw [← hmn, ← havg]
    exact (le_div_iff₀ hn).mpr (mul_length_le_sum (x :: xs) (pyMin x xs) (pyMin_le x xs))
  · rw [← havg, ← hmx]
    exact (div_le_iff₀ hn).mpr (sum_le_mul_length (x :: xs) (pyMax x xs) (pyMax_le x xs))

/-- Witness for C9 at the default data: the triple (1, 2, 3). -/
theorem crossTab_ordered_witness :
    (AQDataSet.init.load defaultRows).crossTabStatistics "94040" "Morning" =
        .ok (1, 2, 3) ∧ ((1 : ℚ) ≤ 2 ∧ (2 : ℚ) ≤ 3) := by
  have hval : (AQDataSet.init.load defaultRows).crossTabStatistics "94040" "Morning" =
      .ok (1, 2, 3) := by
    simp [AQDataSet.crossTabStatistics, AQDataSet.load, matchedConc, defaultRows,
      pyMin, pyMax]
    norm_num
  exact ⟨hval, crossTab_ordered (AQDataSet.init.load defaultRows)
    "94040" "Morning" 1 2 3 hval⟩

/-! ### Claim C2: failure cases of `crossTabStatistics` -/

/-- C2: `crossTabStatistics` fails with `EmptyDatasetError` exactly when
the dataset is never-loaded or loaded with zero rows, fails with
`NoMatchingItems` exactly when it is loaded and non-empty but the
filter matches nothing, and raises no other error. -/
theorem crossTab_error_cases (ds : AQDataSet) (d₁ d₂ : String) :
    (ds.crossTabStatistics d₁ d₂ = .error .emptyDataset ↔
      ds.data = none ∨ ds.data = some []) ∧
    (ds.crossTabStatistics d₁ d₂ = .error .noMatchingItems ↔
      ∃ rows, ds.data = some rows ∧ rows ≠ [] ∧ matchedConc rows d₁ d₂ = []) ∧
    (∀ e, ds.crossTabStatistics d₁ d₂ = .error e →
      e = .emptyDataset ∨ e = .noMatchingItems) := by
  rcases hd : ds.data with _ | rows
  · have hval : ds.crossTabStatistics d₁ d₂ = .error .emptyDataset := by
      unfold AQDataSet.crossTabStatistics; rw [hd]
    refine ⟨by simp [hval, hd], by simp [hval, hd], ?_⟩
    intro e he
    rw [hval] at he
    exact Or.inl (Except.error.inj he).symm
  by_cases h0 : rows.length = 0
  · have hrows : rows = [] := List.length_eq_zero.mp h0
    have hval : ds.crossTabStatistics d₁ d₂ = .error .emptyDataset := by
      unfold AQDataSet.crossTabStatistics; rw [hd]; simp only [if_pos h0]
    refine ⟨by simp [hval, hd, hrows], by simp [hval, hd, hrows], ?_⟩
    intro e he
    rw [hval] at he
    exact Or.inl (Except.error.inj he).symm
  have hne : rows ≠ [] := fun hr => h0 (by rw [hr]; rfl)
  rcases hx : matchedConc rows d₁ d₂ with _ | ⟨x, xs⟩
  · have hval : ds.crossTabStatistics d₁ d₂ = .error .noMatchingItems := by
      unfold AQDataSet.crossTabStatistics; rw [hd]; simp only [if_neg h0, hx]
    refine ⟨by simp [hval, hd, hne], by simp [hval, hd, hne, hx], ?_⟩
    intro e he
    rw [hval] at he
    exact Or.inr (Except.error.inj he).symm
  have hcalc : ds.crossTabStatistics d₁ d₂ =
      .ok (pyMin x xs, (x :: xs).sum / ((x :: xs).length : ℚ), pyMax x xs) := by
    unfold AQDataSet.crossTabStatistics; rw [hd]; simp only [if_neg h0, hx]
  refine ⟨by simp [hcalc, hd, hne], by simp [hcalc, hd, hne, hx], ?_⟩
  intro e he
  rw [hcalc] at he
  cases he

/-- Witness for C2: a fresh dataset signals `EmptyDatasetError`. -/
theorem crossTab_error_cases_witness :
    AQDataSet.init.crossTabStatistics "94040" "Morning" =
      .error .emptyDataset :=
  (crossTab_error_cases AQDataSet.init "94040" "Morning").1.mpr (Or.inl rfl)

/-! ### Claim C3: the header setter -/

/-- C3: `setHeader` stores the text exactly when its length is at most
30 characters; a longer text raises `ValueError` and leaves the whole
state, in particular the stored header, unchanged. -/
theorem setHeader_length (ds : AQDataSet) (text : String) :
    (text.length ≤ 30 → ds.setHeader text = (none, { ds with header := text })) ∧
    (30 < text.length → ds.setHeader text = (some PyError.valueError, ds)) ∧
    ((ds.setHeader text).1 = none ∧ ((ds.setHeader text).2).header = text ↔
      text.length ≤ 30) := by
  refine ⟨?_, ?_, ?_, ?_⟩
  · intro h
    simp only [AQDataSet.setHeader, if_pos h]
  · intro h
    simp only [AQDataSet.setHeader, if_neg (Nat.not_le.mpr h)]
  · rintro ⟨h1, _⟩
    by_contra hnot
    simp only [AQDataSet.setHeader, if_neg hnot] at h1
    cases h1
  · intro h
    simp [AQDataSet.setHeader, if_pos h]

/-- Witness for C3: a 31-character header is rejected without change. -/
theorem setHeader_length_witness :
    AQDataSet.init.setHeader "aaaaaaaaaaaaaaaaaaaaaaaaaaaaaaa" =
      (some PyError.valueError, AQDataSet.init) :=
  (setHeader_length AQDataSet.init "aaaaaaaaaaaaaaaaaaaaaaaaaaaaaaa").2.1
    (by decide)

/-! ### Claim C7: the `get_data` sentinel -/

/-- C7: `get_data` returns the one-element `[none]` sentinel exactly
when no load has ever occurred; after a load it returns the stored
rows (under the `some` embedding of the option-valued result type),
with a loaded-but-empty dataset yielding the empty list. -/
theorem get_data_sentinel (ds : AQDataSet) :
    (ds.get_data = [none] ↔ ds.data = none) ∧
    (∀ rows, ds.data = some rows → ds.get_data = rows.map some) ∧
    (ds.data = some [] → ds.get_data = []) := by
  rcases hd : ds.data with _ | rows
  · refine ⟨by simp [AQDataSet.get_data, hd], ?_, ?_⟩
    · intro rows hr; cases hr
    · intro hr; cases hr
  · have hval : ds.get_data = rows.map some := by
      unfold AQDataSet.get_data; rw [hd]
    refine ⟨?_, ?_, ?_⟩
    · rw [hval]
      constructor
      · intro hmap
        have hmem : (none : Option Reading) ∈ rows.map some := by
          rw [hmap]; exact List.mem_singleton.mpr rfl
        rcases List.mem_map.mp hmem with ⟨a, _, ha⟩
        cases ha
      · intro hcontra; cases hcontra
    · intro rows' hr
      injection hr with hr
      rw [hval, hr]
    · intro hr
      injection hr with hr
      rw [hval, hr]
      rfl

/-- Witness for C7: a fresh dataset yields the `[none]` sentinel. -/
theorem get_data_sentinel_witness : AQDataSet.init.get_data = [none] :=
  (get_data_sentinel AQDataSet.init).1.mpr rfl

/-! ### Lemmas about the zip-filter dict operations -/

theorem zipsToggle_entry_fst (z : String) (p : String × Bool) :
    (if p.1 == z then (p.1, !p.2) else p).1 = p.1 := by
  by_cases hp : (p.1 == z) = true <;> simp [hp]

theorem zipsToggle_fst (zips : List (String × Bool)) (z : String) :
    (zipsToggle zips z).map Prod.fst = zips.map Prod.fst := by
  induction zips with
  | nil => rfl
  | cons p ps ih =>
    simp only [zipsToggle, List.map_cons] at ih ⊢
    rw [zipsToggle_entry_fst, ih]

theorem zipsContains_toggle (zips : List (String × Bool)) (z w : String) :
    zipsContains (zipsToggle zips z) w = zipsContains zips w := by
  induction zips with
  | nil => rfl
  | cons p ps ih =>
    simp only [zipsToggle, zipsContains, List.map_cons, List.any_cons] at ih ⊢
    rw [zipsToggle_entry_fst, ih]

theorem zipsToggle_involution (zips : List (String × Bool)) (z : String) :
    zipsToggle (zipsToggle zips z) z = zips := by
  induction zips with
  | nil => rfl
  | cons p ps ih =>
    simp only [zipsToggle, List.map_cons] at ih ⊢
    rw [ih]
    by_cases hp : (p.1 == z) = true
    · simp [hp]
    · simp [hp]

theorem zipsContains_eq_isSome (zips : List (String × Bool)) (z : String) :
    zipsContains zips z = (zipsLookup zips z).isSome := by
  induction zips with
  | nil => rfl
  | cons p ps ih =>
    simp only [zipsContains, zipsLookup, List.any_cons, List.find?_cons] at ih ⊢
    by_cases hp : (p.1 == z) = true
    · simp [hp]
    · simp only [hp, Bool.false_or, cond_false]
      exact ih

theorem zipsLookup_toggle_self (zips : List (String × Bool)) (z : String) (b : Bool)
    (h : zipsLookup zips z = some b) :
    zipsLookup (zipsToggle zips z) z = some (!b) := by
  induction zips with
  | nil => cases h
  | cons p ps ih =>
    rw [zipsToggle, List.map_cons]
    by_cases hp : (p.1 == z) = true
    · rw [if_pos hp]
      rw [zipsLookup, List.find?_cons] at h ⊢
      simp only [hp, cond_true, Option.map_some] at h ⊢
      injection h with h
      rw [h]
      rfl
    · rw [if_neg hp]
      rw [zipsLookup, List.find?_cons] at h
      rw [zipsLookup, List.find?_cons]
      simp only [hp, cond_false] at h ⊢
      exact ih h

/-! ### Claim C4: `toggle_zip` flips present keys, rejects absent ones -/

/-- C4: when `z` is a key of the filter dict, `toggle_zip` succeeds and
the flag stored for `z` becomes the negation of its previous value;
when `z` is not a key it raises `LookupError` and returns the whole
state unchanged. -/
theorem toggle_zip_spec (ds : AQDataSet) (z : String) :
    (∀ b, zipsLookup ds.zips z = some b →
      ∃ ds', ds.toggle_zip z = (none, ds') ∧
        zipsLookup ds'.zips z = some (!b)) ∧
    (zipsContains ds.zips z = false →
      ds.toggle_zip z = (some PyError.lookupError, ds)) := by
  constructor
  · intro b hb
    have hc : zipsContains ds.zips z = true := by
      rw [zipsContains_eq_isSome, hb]
      rfl
    refine ⟨{ ds with zips := zipsToggle ds.zips z }, ?_, ?_⟩
    · unfold AQDataSet.toggle_zip
      rw [hc]
      simp
    · exact zipsLookup_toggle_self ds.zips z b hb
  · intro hc
    unfold AQDataSet.toggle_zip
    rw [hc]
    simp

/-- Witness for C4: toggling "94022" on the default data flips its
flag from `true` to `false`. -/
theorem toggle_zip_spec_witness :
    ∃ ds', (AQDataSet.init.load defaultRows).toggle_zip "94022" = (none, ds') ∧
      zipsLookup ds'.zips "94022" = some (!true) :=
  (toggle_zip_spec (AQDataSet.init.load defaultRows) "94022").1 true
    (by simp [AQDataSet.load, initZips, zipsStep, defaultRows, zipsLookup])

/-! ### Claim C5: `toggle_zip` is an involution -/

/-- C5: toggling a present zip twice succeeds both times and restores
the entire dataset state, in particular the zip-filter dict. -/
theorem toggle_zip_involution (ds : AQDataSet) (z : String)
    (h : zipsContains ds.zips z = true) :
    ∃ ds₁ ds₂, ds.toggle_zip z = (none, ds₁) ∧ ds₁.toggle_zip z = (none, ds₂) ∧
      ds₂ = ds := by
  refine ⟨{ ds with zips := zipsToggle ds.zips z },
    { ds with zips := zipsToggle (zipsToggle ds.zips z) z }, ?_, ?_, ?_⟩
  · unfold AQDataSet.toggle_zip
    rw [h]
    simp
  · unfold AQDataSet.toggle_zip
    rw [zipsContains_toggle ds.zips z z, h]
    simp
  · rw [zipsToggle_involution]

/-- Witness for C5 at the default data and zip "94022". -/
theorem toggle_zip_involution_witness :
    ∃ ds₁ ds₂, (AQDataSet.init.load defaultRows).toggle_zip "94022" = (none, ds₁) ∧
      ds₁.toggle_zip "94022" = (none, ds₂) ∧
      ds₂ = AQDataSet.init.load defaultRows :=
  toggle_zip_involution (AQDataSet.init.load defaultRows) "94022"
    (by simp [AQDataSet.load, initZips, zipsStep, defaultRows, zipsContains])

/-! ### Claim C10: frame property of a successful `toggle_zip` -/

theorem zipsToggle_length (zips : List (String × Bool)) (z : String) :
    (zipsToggle zips z).length = zips.length := by
  simp [zipsToggle]

theorem zipsToggle_get (zips : List (String × Bool)) (z : String) (i : ℕ)
    (hi : i < zips.length) (hi' : i < (zipsToggle zips z).length) :
    (zipsToggle zips z).get ⟨i, hi'⟩ =
      (if (zips.get ⟨i, hi⟩).1 == z
        then ((zips.get ⟨i, hi⟩).1, !(zips.get ⟨i, hi⟩).2)
        else zips.get ⟨i, hi⟩) := by
  induction zips generalizing i with
  | nil => cases hi
  | cons p ps ih =>
    cases i with
    | zero => rfl
    | succ n =>
      exact ih n (Nat.lt_of_succ_lt_succ hi)
        (by simpa [zipsToggle] using Nat.lt_of_succ_lt_succ hi')

/-- C10: a successful `toggle_zip z` changes nothing but the flag
stored at the entries whose key is `z`: readings, time labels, header,
the length of the filter dict, the key at every position, and the flag
at every position with a different key are unchanged, while the flag
at each position keyed `z` is negated. -/
theorem toggle_zip_frame (ds : AQDataSet) (z : String)
    (h : zipsContains ds.zips z = true) :
    ∃ ds', ds.toggle_zip z = (none, ds') ∧
      ds'.data = ds.data ∧ ds'.times = ds.times ∧ ds'.header = ds.header ∧
      ds'.zips.length = ds.zips.length ∧
      (∀ i (hi : i < ds.zips.length) (hi' : i < ds'.zips.length),
        (ds'.zips.get ⟨i, hi'⟩).1 = (ds.zips.get ⟨i, hi⟩).1 ∧
        ((ds.zips.get ⟨i, hi⟩).1 ≠ z →
          ds'.zips.get ⟨i, hi'⟩ = ds.zips.get ⟨i, hi⟩) ∧
        ((ds.zips.get ⟨i, hi⟩).1 = z →
          (ds'.zips.get ⟨i, hi'⟩).2 = !(ds.zips.get ⟨i, hi⟩).2)) := by
  refine ⟨{ ds with zips := zipsToggle ds.zips z }, ?_, rfl, rfl, rfl,
    zipsToggle_length ds.zips z, ?_⟩
  · unfold AQDataSet.toggle_zip
    rw [h]
    simp
  · intro i hi hi'
    rw [zipsToggle_get ds.zips z i hi hi']
    by_cases hp : ((ds.zips.get ⟨i, hi⟩).1 == z) = true
    · rw [if_pos hp]
      have hz : (ds.zips.get ⟨i, hi⟩).1 = z := by
        exact beq_iff_eq.mp hp
      exact ⟨rfl, fun hne => absurd hz hne, fun _ => rfl⟩
    · rw [if_neg hp]
      have hz : (ds.zips.get ⟨i, hi⟩).1 ≠ z := by
        intro he
        exact hp (beq_iff_eq.mpr he)
      exact ⟨rfl, fun _ => rfl, fun he => absurd he hz⟩

/-- Witness for C10 at the default data and zip "94022". -/
theorem toggle_zip_frame_witness :
    ∃ ds', (AQDataSet.init.load defaultRows).toggle_zip "94022" = (none, ds') ∧
      ds'.data = (AQDataSet.init.load defaultRows).data ∧
      ds'.times = (AQDataSet.init.load defaultRows).times ∧
      ds'.header = (AQDataSet.init.load defaultRows).header ∧
      ds'.zips.length = (AQDataSet.init.load defaultRows).zips.length ∧
      (∀ i (hi : i < (AQDataSet.init.load defaultRows).zips.length)
          (hi' : i < ds'.zips.length),
        (ds'.zips.get ⟨i, hi'⟩).1 =
          ((AQDataSet.init.load defaultRows).zips.get ⟨i, hi⟩).1 ∧
        (((AQDataSet.init.load defaultRows).zips.get ⟨i, hi⟩).1 ≠ "94022" →
          ds'.zips.get ⟨i, hi'⟩ =
            (AQDataSet.init.load defaultRows).zips.get ⟨i, hi⟩) ∧
        (((AQDataSet.init.load defaultRows).zips.get ⟨i, hi⟩).1 = "94022" →
          (ds'.zips.get ⟨i, hi'⟩).2 =
            !((AQDataSet.init.load defaultRows).zips.get ⟨i, hi⟩).2)) :=
  toggle_zip_frame (AQDataSet.init.load defaultRows) "94022"
    (by simp [AQDataSet.load, initZips, zipsStep, defaultRows, zipsContains])

/-! ### Claim C6: `load` fully determines the derived state -/

/-- Deduplication step keeping first occurrences. -/
def dedupStep (acc : List String) (z : String) : List String :=
  if acc.any (fun w => w == z) then acc else acc ++ [z]

/-- The spec's "every distinct zip, keys in first-seen order": the
distinct elements of a list in order of first occurrence. -/
def dedupFirstSeen (l : List String) : List String := l.foldl dedupStep []

theorem any_map_fst (acc : List (String × Bool)) (z : String) :
    ((acc.map Prod.fst).any fun w => w == z) = acc.any fun p => p.1 == z := by
  induction acc with
  | nil => rfl
  | cons p ps ih => simp [List.any_cons, ih]

theorem initZips_fst_comm (rows : List Reading) (acc : List (String × Bool)) :
    (rows.foldl zipsStep acc).map Prod.fst =
      (rows.map Reading.zip).foldl dedupStep (acc.map Prod.fst) := by
  induction rows generalizing acc with
  | nil => rfl
  | cons r rs ih =>
    rw [List.foldl_cons, List.map_cons, List.foldl_cons, ih]
    congr 1
    unfold zipsStep dedupStep
    rw [any_map_fst]
    by_cases hc : acc.any (fun p => p.1 == r.zip) = true
    · rw [if_pos hc, if_pos hc]
    · rw [if_neg hc, if_neg hc, List.map_append]
      rfl

theorem initZips_values_true (rows : List Reading) (acc : List (String × Bool))
    (hacc : ∀ p ∈ acc, p.2 = true) :
    ∀ p ∈ rows.foldl zipsStep acc, p.2 = true := by
  induction rows generalizing acc with
  | nil => exact hacc
  | cons r rs ih =>
    rw [List.foldl_cons]
    apply ih
    intro p hp
    unfold zipsStep at hp
    by_cases hc : acc.any (fun q => q.1 == r.zip) = true
    · rw [if_pos hc] at hp
      exact hacc p hp
    · rw [if_neg hc] at hp
      rcases List.mem_append.mp hp with hmem | hmem
      · exact hacc p hmem
      · rw [List.mem_singleton.mp hmem]

theorem dedup_foldl_nodup (l : List String) (acc : List String) (hacc : acc.Nodup) :
    (l.foldl dedupStep acc).Nodup := by
  induction l generalizing acc with
  | nil => exact hacc
  | cons x xs ih =>
    rw [List.foldl_cons]
    apply ih
    unfold dedupStep
    by_cases hc : acc.any (fun w => w == x) = true
    · rw [if_pos hc]; exact hacc
    · rw [if_neg hc]
      have hx : x ∉ acc := by
        intro hmem
        exact hc (List.any_eq_true.mpr ⟨x, hmem, by simp⟩)
      simp [List.nodup_append, hacc, hx]

theorem dedup_foldl_mem (l : List String) (acc : List String) (w : String) :
    w ∈ l.foldl dedupStep acc ↔ w ∈ acc ∨ w ∈ l := by
  induction l generalizing acc with
  | nil => simp
  | cons x xs ih =>
    rw [List.foldl_cons, ih]
    unfold dedupStep
    by_cases hc : acc.any (fun v => v == x) = true
    · rw [if_pos hc]
      have hx : x ∈ acc := by
        rcases List.any_eq_true.mp hc with ⟨v, hv, he⟩
        rw [← beq_iff_eq.mp he]
        exact hv
      constructor
      · rintro (h | h)
        · exact Or.inl h
        · exact Or.inr (List.mem_cons_of_mem x h)
      · rintro (h | h)
        · exact Or.inl h
        · rcases List.mem_cons.mp h with h | h
          · exact Or.inl (h ▸ hx)
          · exact Or.inr h
    · rw [if_neg hc]
      simp only [List.mem_append, List.mem_singleton, List.mem_cons]
      tauto

theorem initTimes_eq_dedup (rows : List Reading) (acc : List String) :
    rows.foldl timesStep acc = (rows.map Reading.time).foldl dedupStep acc := by
  induction rows generalizing acc with
  | nil => rfl
  | cons r rs ih =>
    rw [List.foldl_cons, List.map_cons, List.foldl_cons, ih]
    rfl

/-- C6: the state after `load rows` is computed from `rows` alone: the
readings become `rows`; the filter dict carries exactly the distinct
zips of `rows` (no duplicate keys, keys in first-seen order) each
mapped to `true`; the time-label list carries exactly the distinct
time-of-day strings of `rows`; and no component depends on the prior
state. -/
theorem load_determines_state (ds : AQDataSet) (rows : List Reading) :
    (ds.load rows).data = some rows ∧
    (ds.load rows).zips.map Prod.fst = dedupFirstSeen (rows.map Reading.zip) ∧
    ((ds.load rows).zips.map Prod.fst).Nodup ∧
    (∀ z, z ∈ (ds.load rows).zips.map Prod.fst ↔ z ∈ rows.map Reading.zip) ∧
    (∀ p ∈ (ds.load rows).zips, p.2 = true) ∧
    (ds.load rows).times = dedupFirstSeen (rows.map Reading.time) ∧
    (ds.load rows).times.Nodup ∧
    (∀ t, t ∈ (ds.load rows).times ↔ t ∈ rows.map Reading.time) ∧
    (∀ prior : AQDataSet, (prior.load rows).data = (ds.load rows).data ∧
      (prior.load rows).zips = (ds.load rows).zips ∧
      (prior.load rows).times = (ds.load rows).times) := by
  have hfst : (ds.load rows).zips.map Prod.fst =
      dedupFirstSeen (rows.map Reading.zip) := by
    show (initZips rows).map Prod.fst = _
    rw [initZips, initZips_fst_comm rows []]
    rfl
  have htimes : (ds.load rows).times = dedupFirstSeen (rows.map Reading.time) := by
    show initTimes rows = _
    rw [initTimes, initTimes_eq_dedup rows []]
    rfl
  refine ⟨rfl, hfst, ?_, ?_, ?_, htimes, ?_, ?_, ?_⟩
  · rw [hfst]
    exact dedup_foldl_nodup _ [] List.nodup_nil
  · intro z
    rw [hfst, dedupFirstSeen, dedup_foldl_mem]
    simp
  · exact initZips_values_true rows [] (by intro p hp; cases hp)
  · rw [htimes]
    exact dedup_foldl_nodup _ [] List.nodup_nil
  · intro t
    rw [htimes, dedupFirstSeen, dedup_foldl_mem]
    simp
  · intro prior
    exact ⟨rfl, rfl, rfl⟩

/-- Witness for C6 at the default data. -/
theorem load_determines_state_witness :
    (AQDataSet.init.load defaultRows).data = some defaultRows :=
  (load_determines_state AQDataSet.init defaultRows).1

/-! ### Claim C8: `display_cross_table` -/

/-- C8: rendering on a never-loaded or empty dataset yields only the
"no data" message; otherwise it yields a table whose row labels are
exactly the active zips in dict order (a zip appears as a row
label precisely when its flag is `true`), each row carrying one cell
per time label in list order; a cell holds the selected statistic of a
successful `crossTabStatistics` call and the `"N/A"` sentinel when
that call fails with `NoMatchingItems`, one cell's failure never
affecting the other cells. -/
theorem display_cross_table_spec (ds : AQDataSet) (stat : Stats) :
    ((ds.data = none ∨ ds.data = some []) →
      ds.display_cross_table stat = .noData) ∧
    (∀ rows, ds.data = some rows → rows ≠ [] →
      ∃ tbl, ds.display_cross_table stat = .table tbl ∧
        tbl.map Prod.fst = (ds.zips.filter (fun p => p.2)).map Prod.fst ∧
        (∀ zc cells, (zc, cells) ∈ tbl →
          cells = ds.times.map (fun timeOfDay => renderCell ds stat zc timeOfDay))) ∧
    (∀ z, z ∈ (ds.zips.filter (fun p => p.2)).map Prod.fst ↔ (z, true) ∈ ds.zips) ∧
    (∀ zc timeOfDay,
      (∀ v, ds.crossTabStatistics zc timeOfDay = .ok v →
        renderCell ds stat zc timeOfDay = .val (selectStat stat v)) ∧
      (ds.crossTabStatistics zc timeOfDay = .error .noMatchingItems →
        renderCell ds stat zc timeOfDay = .na)) := by
  refine ⟨?_, ?_, ?_, ?_⟩
  · rintro (hd | hd)
    · unfold AQDataSet.display_cross_table
      rw [hd]
    · unfold AQDataSet.display_cross_table
      rw [hd]
      rfl
  · intro rows hd hne
    have h0 : ¬ rows.length = 0 := fun hl => hne (List.length_eq_zero.mp hl)
    refine ⟨(ds.zips.filter (fun p => p.2)).map (fun p =>
        (p.1, ds.times.map (fun timeOfDay => renderCell ds stat p.1 timeOfDay))),
      ?_, ?_, ?_⟩
    · unfold AQDataSet.display_cross_table
      rw [hd]
      simp only [if_neg h0]
    · rw [List.map_map]
      rfl
    · intro zc cells hmem
      rcases List.mem_map.mp hmem with ⟨p, _, hp⟩
      injection hp with hp1 hp2
      rw [← hp2, ← hp1]
  · intro z
    constructor
    · intro hmem
      rcases List.mem_map.mp hmem with ⟨p, hpf, hp1⟩
      have hpz := List.mem_filter.mp hpf
      have hp2 : p.2 = true := by simpa using hpz.2
      have : p = (z, true) := Prod.ext hp1 hp2
      rw [← this]
      exact hpz.1
    · intro hmem
      exact List.mem_map.mpr ⟨(z, true), List.mem_filter.mpr ⟨hmem, rfl⟩, rfl⟩
  · intro zc timeOfDay
    constructor
    · intro v hok
      unfold renderCell
      rw [hok]
    · intro herr
      unfold renderCell
      rw [herr]

/-- Witness for C8 at the loaded default data. -/
theorem display_cross_table_spec_witness :
    ∃ tbl, (AQDataSet.init.load defaultRows).display_cross_table Stats.AVG =
        .table tbl ∧
      tbl.map Prod.fst =
        ((AQDataSet.init.load defaultRows).zips.filter (fun p => p.2)).map Prod.fst ∧
      (∀ zc cells, (zc, cells) ∈ tbl →
        cells = (AQDataSet.init.load defaultRows).times.map
          (fun timeOfDay =>
            renderCell (AQDataSet.init.load defaultRows) Stats.AVG zc timeOfDay)) :=
  (display_cross_table_spec (AQDataSet.init.load defaultRows) Stats.AVG).2.1
    defaultRows rfl (by simp [defaultRows])
